import Mathlib

/-!
Verification development for the cf-helper local data engine.

The definitions below are a shallow embedding of the TypeScript source:
`src/db.ts` (the IndexedDB submission store) and the content-script
(`src/unnamed/part_000`): catalog ingestion (`fetchCFProblems`), the search
ranker (`searchResults` / `isMatch`), the random-pick pool
(`handleRandomPick`), and the CSV exporter (`handleExportHistory`,
`formatVerdictDetailed`, `formatFullDate`, `formatMemoryKB`).

JS strings are modeled as Lean `String` with character-level helpers
(`lowerStr`, `startsWithStr`, `strIncludes`, ...) that mirror the JS
methods used by the source (`toLowerCase`, `startsWith`, `includes`,
global single-character regex replaces).  JS numbers appearing in the
embedded code are integers in every code path modeled here and are
embedded as `Int` (or `Nat` where the source value is a count).
Optional / possibly-`undefined` fields become `Option`.
-/

namespace CfHelper

/-! ## String helpers (models of the JS string methods used by the source) -/

/-- Model of JS `toLowerCase()` restricted to ASCII (all strings the engine
lowercases are ASCII ids, names and tags). -/
def lowerStr (s : String) : String :=
  String.mk (s.toList.map Char.toLower)

/-- Model of JS `toUpperCase()` restricted to ASCII. -/
def upperStr (s : String) : String :=
  String.mk (s.toList.map Char.toUpper)

/-- Model of JS `s.startsWith(pre)`. -/
def startsWithStr (s pre : String) : Bool :=
  pre.toList.isPrefixOf s.toList

/-- Model of JS `s.includes(sub)`: some suffix of `s` has `sub` as a prefix. -/
def strIncludes (s pat : String) : Bool :=
  s.toList.tails.any (fun t => pat.toList.isPrefixOf t)

/-- Model of JS `s.replace(/"/g, '""')`: double every double-quote character. -/
def escapeQuotes (s : String) : String :=
  String.mk (s.toList.foldr (fun c acc => if c = '"' then '"' :: '"' :: acc else c :: acc) [])

/-- Whether a string contains a double-quote character. -/
def containsQuote (s : String) : Bool :=
  s.toList.any (fun c => c = '"')

/-- Model of JS `n.toString().padStart(2, '0')` for a natural number. -/
def pad2 (n : Nat) : String :=
  if n < 10 then "0" ++ toString n else toString n

/-- Stable insertion into a sorted list: `x` is placed before the first
element `y` with `le y x = false`, hence after all elements it ties with. -/
def insertSorted (le : α → α → Bool) (x : α) : List α → List α
  | [] => [x]
  | y :: ys => if le y x then y :: insertSorted le x ys else x :: y :: ys

/-- Stable sort (model of ES2019 `Array.prototype.sort`, which is stable):
`le a b` means the comparator returns a non-positive value on `(a, b)`. -/
def sortBy (le : α → α → Bool) (l : List α) : List α :=
  l.foldl (fun acc x => insertSorted le x acc) []

/-! ## Data model of the content script (`type Problem`, `type Folder`) -/

/-- `type Problem = { id: string; name: string; tags?: string[]; rating?: number;
contestId?: number; index?: string }`. -/
structure Problem where
  id : String
  name : String
  tags : Option (List String)
  rating : Option Int
  contestId : Option Int
  index : Option String
deriving DecidableEq

/-- `type Folder = { id: string; title: string; problems: Problem[]; isCustom?: boolean }`. -/
structure Folder where
  id : String
  title : String
  problems : List Problem
  isCustom : Option Bool
deriving DecidableEq

/-! ## Search predicate and ranking (`searchResults`, part_000 lines 1211-1238) -/

/-- Text condition of `isMatch`:
`!searchText || (p.id.toLowerCase().includes(lower) || p.name.toLowerCase().includes(lower)
|| (p.tags && p.tags.some(t => t.toLowerCase().includes(lower))))`
where `lower = searchText.toLowerCase()`. -/
def textMatch (searchText : String) (p : Problem) : Bool :=
  let lower := lowerStr searchText
  searchText = "" ||
    (strIncludes (lowerStr p.id) lower || strIncludes (lowerStr p.name) lower ||
      (match p.tags with
       | some ts => ts.any (fun t => strIncludes (lowerStr t) lower)
       | none => false))

/-- Rating condition of `isMatch`:
`p.rating ? (p.rating >= min && p.rating <= max) : (min === 0)`.
JS truthiness of the number `p.rating` makes a present rating of `0`
take the "absent" branch. -/
def ratingMatch (rating : Option Int) (min max : Int) : Bool :=
  match rating with
  | some r => if r ≠ 0 then decide (min ≤ r) && decide (r ≤ max) else min = 0
  | none => min = 0

/-- The `isMatch` predicate of `searchResults` (text condition AND rating
condition), with `min`/`max` the already-resolved rating bounds. -/
def isMatch (searchText : String) (min max : Int) (p : Problem) : Bool :=
  textMatch searchText p && ratingMatch p.rating min max

/-- Ranking score (`getScore`): `0` exact id match, `1` id prefix, `2` name
prefix, else `3`; the query checks are guarded by `searchText` being
truthy (non-empty). -/
def getScore (searchText : String) (p : Problem) : Nat :=
  let lower := lowerStr searchText
  let pid := lowerStr p.id
  if searchText ≠ "" ∧ pid = lower then 0
  else if searchText ≠ "" ∧ startsWithStr pid lower then 1
  else if searchText ≠ "" ∧ startsWithStr (lowerStr p.name) lower then 2
  else 3

/-- `searchCmpLE a b` holds when the JS comparator of `sortProblems`
(score difference, then id length difference, then `localeCompare`)
returns a non-positive value on `(a, b)`.  `localeCompare` is modeled as
code-point order, which agrees with it on the ASCII ids involved. -/
def searchCmpLE (searchText : String) (a b : Problem) : Bool :=
  let sA := getScore searchText a
  let sB := getScore searchText b
  if sA ≠ sB then decide (sA < sB)
  else if a.id.length ≠ b.id.length then decide (a.id.length < b.id.length)
  else decide (a.id ≤ b.id)

/-- `sortProblems` of `searchResults`. -/
def sortProblems (searchText : String) (l : List Problem) : List Problem :=
  sortBy (searchCmpLE searchText) l

/-- `searchResults` (part_000 lines 1211-1238).  The string states
`minRating` / `maxRating` are modeled as `Option Int`: `none` is the empty
string (falsy), `some v` a non-empty string parsing to `v` (truthy, even
for `"0"`).  Returns `(my, global)`. -/
def searchResults (searchText : String) (minR maxR : Option Int)
    (myFolders : List Folder) (allProblemsCache : List Problem) :
    List Problem × List Problem :=
  if searchText = "" ∧ minR = none ∧ maxR = none then ([], [])
  else
    let min := minR.getD 0
    let max := maxR.getD 10000
    let myMatches := myFolders.foldl (fun acc f =>
      f.problems.foldl (fun acc2 p =>
        if isMatch searchText min max p ∧ ¬ acc2.any (fun x => x.id = p.id)
        then acc2 ++ [p] else acc2) acc) []
    let globalMatches := allProblemsCache.filter (fun p => isMatch searchText min max p)
    (sortProblems searchText myMatches, (sortProblems searchText globalMatches).take 50)

/-! ## Random pick pool (`handleRandomPick`, part_000 lines 1057-1072) -/

/-- Lookup in the `userStatus` map (`StatusMap = Record<string, "OK" | "WRONG">`). -/
def statusOf (m : List (String × String)) (k : String) : Option String :=
  (m.find? (fun e => e.1 = k)).map (fun e => e.2)

/-- The pool filter of `handleRandomPick`: the same text and rating
conditions as `isMatch`, plus
`notSolved = !settings.showStatus || userStatus[p.id] !== "OK"`. -/
def randomPickPred (searchText : String) (min max : Int) (showStatus : Bool)
    (userStatus : List (String × String)) (p : Problem) : Bool :=
  textMatch searchText p && ratingMatch p.rating min max &&
    (!showStatus || !(statusOf userStatus p.id = some "OK"))

/-- The filtered pool of `handleRandomPick` over the catalog cache, with the
same bound resolution (`minRating ? parseInt : 0`, `maxRating ? parseInt : 10000`). -/
def randomPickPool (searchText : String) (minR maxR : Option Int) (showStatus : Bool)
    (userStatus : List (String × String)) (allProblemsCache : List Problem) : List Problem :=
  allProblemsCache.filter
    (randomPickPred searchText (minR.getD 0) (maxR.getD 10000) showStatus userStatus)

/-! ## Catalog ingestion (`fetchCFProblems`, part_000 lines 909-926) -/

/-- One entry of the remote problem list
(`{contestId, index, name, tags[], rating}`). -/
structure RemoteProblem where
  contestId : Int
  index : String
  name : String
  tags : Option (List String)
  rating : Option Int
deriving DecidableEq

/-- Normalization of one remote entry:
`{ id: contestId + index, name, tags: tags || [], rating, contestId }`
(note the produced object has no `index` field). -/
def normalizeProblem (p : RemoteProblem) : Problem :=
  { id := toString p.contestId ++ p.index
    name := p.name
    tags := some (p.tags.getD [])
    rating := p.rating
    contestId := some p.contestId
    index := none }

/-- `data.result.problems.map(p => ({...}))` of `fetchCFProblems`. -/
def normalizeProblems (ps : List RemoteProblem) : List Problem :=
  ps.map normalizeProblem

/-- The fixed tag registry `CF_TAGS` (part_000 line 640). -/
def CF_TAGS : List String :=
  ["dp", "greedy", "math", "graphs", "data structures", "sortings",
   "binary search", "dfs and similar", "trees", "strings", "number theory",
   "geometry", "two pointers", "dsu", "bitmasks", "constructive algorithms",
   "implementation"]

/-- Per-tag system folders built on a successful refresh: filter by tag,
sort by `contestId` descending (ingestion always sets `contestId`; an
absent one is read as `0`), take 20, wrap as `sys_` folder. -/
def classifyFolders (rawProblems : List Problem) : List Folder :=
  CF_TAGS.map (fun tag =>
    let pList := (sortBy (fun a b => decide (b.contestId.getD 0 ≤ a.contestId.getD 0))
      (rawProblems.filter (fun p => (p.tags.getD []).contains tag))).take 20
    { id := "sys_" ++ tag, title := upperStr tag, problems := pList, isCustom := none })

/-- The state `fetchCFProblems` may mutate: the cached problem snapshot and
the derived system folders. -/
structure CatalogState where
  allProblemsCache : List Problem
  systemFolders : List Folder
deriving DecidableEq

/-- Outcome of the single remote fetch performed by `fetchCFProblems`:
either the fetch / JSON parse throws, or the endpoint answers with a
`status` string and a problem list. -/
inductive FetchOutcome where
  | networkError : FetchOutcome
  | response (status : String) (problems : List RemoteProblem) : FetchOutcome
deriving DecidableEq

/-- `fetchCFProblems` as a state transformer over the fetch outcome: only a
response with `status === "OK"` replaces the snapshot and recomputes the
system folders; a thrown error is caught (`catch (e) { console.error(e) }`)
and a non-OK status falls through, both leaving the state untouched.  The
function performs exactly one fetch: no retry exists in the source. -/
def fetchCFProblems (st : CatalogState) (outcome : FetchOutcome) : CatalogState :=
  match outcome with
  | .networkError => st
  | .response status problems =>
    if status = "OK" then
      let rawProblems := normalizeProblems problems
      { allProblemsCache := rawProblems, systemFolders := classifyFolders rawProblems }
    else st

/-! ## Submission store (`src/db.ts`) -/

/-- The stored submission record (the `value` shape of the `submissions`
object store in `src/db.ts`). -/
structure SubRecord where
  id : Int
  contestId : Int
  index : String
  name : String
  rating : Option Int
  tags : List String
  programmingLanguage : String
  verdict : String
  testset : String
  passedTestCount : Nat
  timeConsumedMillis : Int
  memoryConsumedBytes : Int
  creationTimeSeconds : Int
  code : Option String
deriving DecidableEq

/-- The `problem` sub-object of a raw remote submission. -/
structure RawProblemRef where
  contestId : Int
  index : String
  name : String
  rating : Option Int
  tags : Option (List String)
deriving DecidableEq

/-- A raw input record handed to `saveSubmissions` (`any[]` in the source;
this is the shape the remote `user.status` endpoint delivers, plus an
optional `code` field that the surrounding shapes allow but
`saveSubmissions` never reads). -/
structure RawSubmission where
  id : Option Int
  problem : Option RawProblemRef
  programmingLanguage : String
  verdict : String
  testset : String
  passedTestCount : Nat
  timeConsumedMillis : Int
  memoryConsumedBytes : Int
  creationTimeSeconds : Int
  code : Option String
deriving DecidableEq

/-- `store.get(key)` of the keyed object store: the record with the given id. -/
def getById (s : List SubRecord) (k : Int) : Option SubRecord :=
  s.find? (fun r => r.id = k)

/-- `store.put(record)` of the keyed object store: replace the record with
the same key, or add the record if the key is new. -/
def putRecord : List SubRecord → SubRecord → List SubRecord
  | [], r => [r]
  | e :: es, r => if e.id = r.id then r :: es else e :: putRecord es r

/-- The object written by `saveSubmissions` for one input record: all fields
from the input, except `code: existing?.code` which is carried over from
the already-stored record (the input's own `code` is not consulted). -/
def mkRecord (sub : RawSubmission) (i : Int) (pr : RawProblemRef)
    (existing : Option SubRecord) : SubRecord :=
  { id := i
    contestId := pr.contestId
    index := pr.index
    name := pr.name
    rating := pr.rating
    tags := pr.tags.getD []
    programmingLanguage := sub.programmingLanguage
    verdict := sub.verdict
    testset := sub.testset
    passedTestCount := sub.passedTestCount
    timeConsumedMillis := sub.timeConsumedMillis
    memoryConsumedBytes := sub.memoryConsumedBytes
    creationTimeSeconds := sub.creationTimeSeconds
    code := existing.bind (fun r => r.code) }

/-- One loop iteration of `saveSubmissions`: `if (sub.id && sub.problem)`
(a numeric id of `0` is falsy and skipped), fetch the existing record,
put the combined record. -/
def mergeOne (store : List SubRecord) (sub : RawSubmission) : List SubRecord :=
  match sub.id, sub.problem with
  | some i, some pr =>
    if i ≠ 0 then putRecord store (mkRecord sub i pr (getById store i)) else store
  | _, _ => store

/-- `saveSubmissions`: merge a whole batch into the store, in order. -/
def saveSubmissions (store : List SubRecord) (submissions : List RawSubmission) :
    List SubRecord :=
  submissions.foldl mergeOne store

/-- The key under which an input record is written, if it is written at all
(a truthy id together with a present problem reference). -/
def validKey (sub : RawSubmission) : Option Int :=
  match sub.id, sub.problem with
  | some i, some _ => if i ≠ 0 then some i else none
  | _, _ => none

/-- All keys a batch can write. -/
def validIds (subs : List RawSubmission) : List Int :=
  subs.filterMap validKey

/-! ## Exporter (`formatVerdictDetailed`, `formatFullDate`, `formatMemoryKB`,
`handleExportHistory`, part_000 lines 705-724 and 956-984) -/

/-- Model of `verdict.replace(/_/g, ' ')`. -/
def underscoresToSpaces (s : String) : String :=
  String.mk (s.toList.map (fun c => if c = '_' then ' ' else c))

/-- Model of `.replace(/\b\w/g, c => c.toUpperCase())`: uppercase every word
character (`[A-Za-z0-9_]`) whose predecessor is not a word character. -/
def titleChars : Bool → List Char → List Char
  | _, [] => []
  | prevWord, c :: cs =>
    let w := c.isAlphanum || c = '_'
    (if w && !prevWord then c.toUpper else c) :: titleChars w cs

/-- The humanization pipeline of `formatVerdictDetailed`:
underscores to spaces, lowercase, then title-case each word start. -/
def humanize (v : String) : String :=
  String.mk (titleChars false (lowerStr (underscoresToSpaces v)).toList)

/-- The humanized verdicts that receive an `" on test "` suffix. -/
def verdictSuffixList : List String :=
  ["Wrong Answer", "Time Limit Exceeded", "Memory Limit Exceeded", "Runtime Error"]

/-- `formatVerdictDetailed` (part_000 lines 711-720).  An empty verdict is
falsy and yields `""`; the suffix decision tests the humanized text, not
the raw verdict. -/
def formatVerdictDetailed (verdict : String) (passedCount : Nat) : String :=
  if verdict = "" then ""
  else if verdict = "OK" then "Accepted"
  else if verdict = "COMPILATION_ERROR" then "Compilation Error"
  else
    let text := humanize verdict
    if verdictSuffixList.contains text then
      text ++ " on test " ++ toString (passedCount + 1)
    else text

/-- `formatMemoryKB`: `Math.max(0, Math.round(bytes / 1024))`; JS
`Math.round` is floor of the value plus one half. -/
def formatMemoryKB (bytes : Int) : Int :=
  max 0 ((bytes + 512).fdiv 1024)

/-- Civil date from a day count relative to 1970-01-01 (proleptic Gregorian
calendar, the arithmetic JS `Date` getters perform): year, month, day. -/
def civilFromDays (z0 : Int) : Int × Nat × Nat :=
  let z := z0 + 719468
  let era := z.fdiv 146097
  let doe := (z - era * 146097).toNat
  let yoe := (doe - doe / 1460 + doe / 36524 - doe / 146096) / 365
  let y := (yoe : Int) + era * 400
  let doy := doe - (365 * yoe + yoe / 4 - yoe / 100)
  let mp := (5 * doy + 2) / 153
  let d := doy - (153 * mp + 2) / 5 + 1
  let m := if mp < 10 then mp + 3 else mp - 9
  (if m ≤ 2 then y + 1 else y, m, d)

/-- `formatFullDate` (part_000 lines 705-709): `YYYY-MM-DD HH:MM:SS` of the
unix timestamp, read on the environment's local clock; the fixed offset
`tz` (in seconds) models that environment parameter (`0` is UTC). -/
def formatFullDate (tz : Int) (unix : Int) : String :=
  let t := unix + tz
  let days := t.fdiv 86400
  let secs := (t - days * 86400).toNat
  let ymd := civilFromDays days
  toString ymd.1 ++ "-" ++ pad2 ymd.2.1 ++ "-" ++ pad2 ymd.2.2 ++ " " ++
    pad2 (secs / 3600) ++ ":" ++ pad2 (secs % 3600 / 60) ++ ":" ++ pad2 (secs % 60)

/-- The `Rating` cell: `row.rating || ""` (a rating of `0` is falsy and
prints as the empty string). -/
def ratingCell : Option Int → String
  | some v => if v = 0 then "" else toString v
  | none => ""

/-- The fixed CSV header row of `handleExportHistory`. -/
def csvHeaders : List String :=
  ["Submission ID", "Contest", "Index", "Problem Name", "Rating", "Verdict",
   "Language", "Time (ms)", "Memory (KB)", "Date Time"]

/-- The ten cell strings of one CSV row of `handleExportHistory` (the
`values` array before `join(",")`).  `(row.name || "")` agrees with
`row.name` on every string. -/
def csvValues (tz : Int) (row : SubRecord) : List String :=
  let dateTime := formatFullDate tz row.creationTimeSeconds
  let verdict := formatVerdictDetailed row.verdict row.passedTestCount
  let memoryKB := formatMemoryKB row.memoryConsumedBytes
  [ toString row.id, toString row.contestId, row.index,
    "\"" ++ escapeQuotes row.name ++ "\"",
    ratingCell row.rating,
    "\"" ++ verdict ++ "\"",
    "\"" ++ row.programmingLanguage ++ "\"",
    toString row.timeConsumedMillis,
    toString memoryKB,
    "\"" ++ dateTime ++ "\"" ]

/-- The CSV text of `handleExportHistory`: the byte-order mark, then the
header row and the data rows joined by newlines. -/
def csvContent (tz : Int) (data : List SubRecord) : String :=
  let csvRows := String.intercalate "," csvHeaders ::
    data.map (fun row => String.intercalate "," (csvValues tz row))
  "\uFEFF" ++ String.intercalate "\n" csvRows

/-- The CSV branch of `handleExportHistory` applied to the queried records:
`data.reverse()` (newest first), then the CSV text. -/
def exportCsv (tz : Int) (queried : List SubRecord) : String :=
  csvContent tz queried.reverse

/-- Modelled from the spec: the cell shape the specification prescribes for
the four text fields — "double-quoted; literal double-quote characters
inside are escaped by doubling".  Used only as the comparison target for
the exporter's actual cells. -/
def specQuotedCell (s : String) : String :=
  "\"" ++ escapeQuotes s ++ "\""

/-! ## Auxiliary view of the store -/

/-- The key list of the store, in store order. -/
def keysOf (s : List SubRecord) : List Int :=
  s.map (fun r => r.id)

/-! ## Concrete sample data used by counterexamples and witnesses -/

/-- Catalog problem `4A` (exact match for the query `"4a"`). -/
def c2P4A : Problem := ⟨"4A", "Watermelon", some ["implementation"], some 1200, some 4, none⟩

/-- Catalog problem `1504A`; `"4a"` occurs inside `"1504a"`. -/
def c2P1504A : Problem := ⟨"1504A", "Deja Vu", some ["strings"], some 800, some 1504, none⟩

/-- Catalog problem `44A`; `"44a"` contains but does not start with `"4a"`. -/
def c2P44A : Problem := ⟨"44A", "Worms Evolution", some ["implementation"], some 1000, some 44, none⟩

/-- A catalog problem whose name starts with `"4a"`. -/
def c2PName4a : Problem := ⟨"999Z", "4a puzzle", none, none, some 999, none⟩

/-- The ids of the global result list for the query `"4a"` with no rating
bounds over the four-problem catalog above. -/
def c2Global : List String :=
  ((searchResults "4a" none none [] [c2P4A, c2P1504A, c2P44A, c2PName4a]).2).map
    (fun p => p.id)

/-- A stored record whose `code` field is populated. -/
def c1Existing : SubRecord :=
  ⟨1, 4, "A", "Watermelon", some 800, ["implementation"], "GNU C++17", "OK",
   "TESTS", 2, 100, 2048, 1000, some "Y"⟩

/-- An incoming record for the same id that supplies a `code` value. -/
def c1Incoming : RawSubmission :=
  ⟨some 1, some ⟨4, "A", "Watermelon", some 800, some ["implementation"]⟩,
   "GNU C++17", "WRONG_ANSWER", "TESTS", 1, 150, 4096, 2000, some "X"⟩

/-- An input record with a falsy id (`0`) but a complete problem reference. -/
def c10Bad : RawSubmission :=
  ⟨some 0, some ⟨4, "A", "Watermelon", some 800, some ["implementation"]⟩,
   "Python 3", "OK", "TESTS", 3, 200, 1024, 3000, none⟩

/-- A well-formed input record. -/
def c10Good : RawSubmission :=
  ⟨some 2, some ⟨1, "B", "Spreadsheet", some 1600, some ["implementation"]⟩,
   "Python 3", "OK", "TESTS", 5, 300, 512, 4000, none⟩

/-- Two distinct remote entries whose `contestId`/`index` concatenations
collide: `(1, "1A")` and `(11, "A")` both produce the id `"11A"`. -/
def c7Colliding : List RemoteProblem :=
  [⟨1, "1A", "First", some ["math"], some 900⟩,
   ⟨11, "A", "Second", some ["greedy"], some 1100⟩]

/-- Two remote entries with distinct concatenations. -/
def c7Distinct : List RemoteProblem :=
  [⟨1, "A", "First", some ["math"], some 900⟩,
   ⟨1, "B", "Second", some ["greedy"], some 1100⟩]

/-- A record whose `programmingLanguage` contains a literal double quote. -/
def c3Rec : SubRecord :=
  ⟨7, 4, "A", "Watermelon", some 800, [], "GNU C++ \"beta\"", "OK", "TESTS",
   2, 100, 2048, 0, none⟩

/-- A record none of whose text cells contains a double quote. -/
def c3Clean : SubRecord :=
  ⟨8, 4, "B", "Before an Exam", some 1100, [], "Kotlin", "WRONG_ANSWER",
   "TESTS", 2, 100, 2048, 0, none⟩

/-- A catalog problem whose rating is present but equal to `0`. -/
def c8PZero : Problem := ⟨"1A", "Theatre Square", some ["math"], some 0, some 1, none⟩

/-- A catalog problem with rating 1600. -/
def c8P1600 : Problem := ⟨"1B", "Spreadsheet", some ["math"], some 1600, some 1, none⟩

/-- A catalog problem with no rating. -/
def c8PNoRating : Problem := ⟨"1C", "Ancient Berland Circus", some ["geometry"], none, some 1, none⟩

/-! ## General lemmas about the string helpers -/

/-- A fold that only rewrites double quotes is the identity on a character
list without them. -/
theorem foldr_escape_of_no_quote (l : List Char) (h : l.any (fun c => c = '"') = false) :
    l.foldr (fun c acc => if c = '"' then '"' :: '"' :: acc else c :: acc) [] = l := by
  induction l with
  | nil => rfl
  | cons c cs ih =>
    simp only [List.any_cons, Bool.or_eq_false_iff] at h
    simp only [List.foldr_cons, ih h.2]
    rw [if_neg (by simpa using h.1)]

/-- `escapeQuotes` leaves a string without double quotes unchanged. -/
theorem escapeQuotes_of_no_quote (s : String) (h : containsQuote s = false) :
    escapeQuotes s = s := by
  unfold escapeQuotes
  rw [foldr_escape_of_no_quote s.toList (by simpa [containsQuote] using h)]
  rfl

/-! ## C5: failed catalog refresh leaves the cached state unchanged -/

/-- C5: on either failure of a catalog refresh — the fetch throwing
(`networkError`) or the endpoint answering with a non-`"OK"` status — the
previously cached snapshot and the derived system folders are left
completely unchanged.  The embedding consumes exactly one fetch outcome, so
no retry is even expressible, matching the source. -/
theorem C5_refresh_failure_preserves_state (st : CatalogState) (o : FetchOutcome)
    (h : o = .networkError ∨
      ∃ status problems, o = .response status problems ∧ status ≠ "OK") :
    fetchCFProblems st o = st := by
  rcases h with h | ⟨status, problems, h, hs⟩ <;> subst h
  · rfl
  · simp [fetchCFProblems, hs]

/-- C5 witness: a non-OK response leaves a concrete state unchanged. -/
theorem C5_refresh_failure_witness :
    fetchCFProblems ⟨[c2P4A], []⟩ (.response "FAILED" []) = ⟨[c2P4A], []⟩ :=
  C5_refresh_failure_preserves_state ⟨[c2P4A], []⟩ (.response "FAILED" [])
    (Or.inr ⟨"FAILED", [], rfl, by decide⟩)

/-! ## C7: ids produced by ingestion -/

/-- C7 counterexample: ingesting two distinct remote entries whose
concatenations collide (`(1, "1A")` and `(11, "A")`) produces duplicate
ids, so uniqueness does not hold for every ingested remote list. -/
theorem C7_unique_ids_counterexample :
    ((fetchCFProblems ⟨[], []⟩ (.response "OK" c7Colliding)).allProblemsCache.map
      (fun q => q.id)) = ["11A", "11A"] ∧
    ¬ (((fetchCFProblems ⟨[], []⟩ (.response "OK" c7Colliding)).allProblemsCache.map
      (fun q => q.id)).Nodup) := by
  constructor
  · decide
  · decide

/-- C7 (amended): every produced problem's id is the concatenation of its
remote entry's `contestId` and `index` (and the produced `contestId` is
that entry's); the ids are unique whenever the input entries'
concatenations are pairwise distinct — ingestion itself never
deduplicates. -/
theorem C7_ingestion_ids_amended (ps : List RemoteProblem) :
    ((normalizeProblems ps).map (fun q => q.id) =
      ps.map (fun p => toString p.contestId ++ p.index)) ∧
    (∀ q ∈ normalizeProblems ps, ∃ p ∈ ps,
      q.id = toString p.contestId ++ p.index ∧ q.contestId = some p.contestId) ∧
    ((ps.map (fun p => toString p.contestId ++ p.index)).Nodup →
      ((normalizeProblems ps).map (fun q => q.id)).Nodup) := by
  have hmap : (normalizeProblems ps).map (fun q => q.id) =
      ps.map (fun p => toString p.contestId ++ p.index) := by
    simp [normalizeProblems, List.map_map, normalizeProblem, Function.comp]
  refine ⟨hmap, ?_, ?_⟩
  · intro q hq
    simp only [normalizeProblems, List.mem_map] at hq
    obtain ⟨p, hp, rfl⟩ := hq
    exact ⟨p, hp, rfl, rfl⟩
  · intro h
    rw [hmap]
    exact h

/-- C7 witness: at a concrete distinct-concatenation input the theorem
yields both the id characterization and uniqueness. -/
theorem C7_ingestion_ids_witness :
    ((normalizeProblems c7Distinct).map (fun q => q.id) =
      c7Distinct.map (fun p => toString p.contestId ++ p.index)) ∧
    ((normalizeProblems c7Distinct).map (fun q => q.id)).Nodup :=
  ⟨(C7_ingestion_ids_amended c7Distinct).1,
   (C7_ingestion_ids_amended c7Distinct).2.2 (by decide)⟩

/-! ## C9: a present rating of 0 behaves like an absent rating -/

/-- C9: in both the search ranker's `isMatch` and the random-pick pool
filter, a problem whose rating is present but equal to `0` is treated
exactly as if the rating were absent: it matches only when the resolved
minimum rating is `0`, and then it matches regardless of the maximum
bound. -/
theorem C9_zero_rating_as_absent (st : String) (min max : Int) (p : Problem)
    (showStatus : Bool) (us : List (String × String)) :
    (isMatch st min max { p with rating := some 0 } =
      isMatch st min max { p with rating := none }) ∧
    (randomPickPred st min max showStatus us { p with rating := some 0 } =
      randomPickPred st min max showStatus us { p with rating := none }) ∧
    (ratingMatch (some 0) min max = true ↔ min = 0) ∧
    (min = 0 → ∀ max2 : Int, ratingMatch (some 0) min max2 = true) := by
  refine ⟨?_, ?_, ?_, ?_⟩
  · simp [isMatch, ratingMatch, textMatch]
  · simp [randomPickPred, ratingMatch, textMatch, statusOf]
  · simp [ratingMatch]
  · intro h max2
    simp [ratingMatch, h]

/-- C9 witness: with no lower bound a zero-rated problem matches even under
a tiny maximum bound. -/
theorem C9_zero_rating_witness : ratingMatch (some 0) 0 (-5) = true :=
  (C9_zero_rating_as_absent "" 0 10000 c8PZero false []).2.2.2 rfl (-5)

/-! ## C8: the rating condition of the match predicate -/

/-- C8 counterexample: a problem whose rating is present (equal to `0`)
matches under `min = 0`, `max = -1` although `min ≤ rating ≤ max` fails,
because the JS truthiness test routes a present rating of `0` into the
"absent" branch.  This falsifies the claim's "rating present" clause as
stated. -/
theorem C8_rating_counterexample :
    c8PZero.rating = some 0 ∧
    isMatch "" 0 (-1) c8PZero = true ∧
    ¬ ((0 : Int) ≤ 0 ∧ (0 : Int) ≤ -1) := by
  refine ⟨rfl, by decide, by decide⟩

/-- C8 (amended): for a problem whose rating is present and non-zero, the
rating condition holds exactly when `min ≤ rating ≤ max`; for a problem
whose rating is absent — or present but `0` — it holds exactly when the
resolved minimum is `0`.  Both the search `isMatch` and the random-pick
filter match only when the rating condition holds, and with a positive
lower bound a ratingless problem is always excluded. -/
theorem C8_rating_amended (st : String) (min max : Int) (p : Problem)
    (showStatus : Bool) (us : List (String × String)) :
    (∀ r, p.rating = some r → r ≠ 0 →
      (ratingMatch p.rating min max = true ↔ min ≤ r ∧ r ≤ max)) ∧
    ((p.rating = none ∨ p.rating = some 0) →
      (ratingMatch p.rating min max = true ↔ min = 0)) ∧
    (isMatch st min max p = true → ratingMatch p.rating min max = true) ∧
    (randomPickPred st min max showStatus us p = true →
      ratingMatch p.rating min max = true) ∧
    (p.rating = none → 0 < min → isMatch st min max p = false) := by
  refine ⟨?_, ?_, ?_, ?_, ?_⟩
  · intro r hr hr0
    rw [hr]
    simp [ratingMatch, hr0]
  · rintro (hr | hr) <;> rw [hr] <;> simp [ratingMatch]
  · intro h
    simp only [isMatch, Bool.and_eq_true] at h
    exact h.2
  · intro h
    simp only [randomPickPred, Bool.and_eq_true] at h
    exact h.1.2
  · intro hr hmin
    have h0 : ¬ (min = 0) := by omega
    simp [isMatch, ratingMatch, hr, h0]

/-- C8 witness: the amended rating condition at concrete inputs — a
1600-rated problem against the bounds `[1500, 1900]`, and a ratingless
problem excluded by the same bounds. -/
theorem C8_rating_amended_witness :
    (ratingMatch c8P1600.rating 1500 1900 = true ↔
      (1500 : Int) ≤ 1600 ∧ (1600 : Int) ≤ 1900) ∧
    isMatch "" 1500 1900 c8PNoRating = false :=
  ⟨(C8_rating_amended "" 1500 1900 c8P1600 false []).1 1600 rfl (by decide),
   (C8_rating_amended "" 1500 1900 c8PNoRating false []).2.2.2.2 rfl (by decide)⟩

/-! ## C2: the "4a" ranking example -/

/-- C2 counterexample: over the catalog `4A`, `1504A`, `44A` plus a problem
(`999Z`) whose name starts with "4a", the global results do contain
`1504A` ("4a" is a substring of "1504a"), and the name-prefix problem is
ranked before `44A` ("44a" does not start with "4a", so `44A` scores 3,
after name-prefix matches).  Both parts contradict the claimed order. -/
theorem C2_ranking_counterexample :
    c2Global.contains "1504A" = true ∧
    c2Global.indexOf "999Z" < c2Global.indexOf "44A" := by
  constructor
  · decide
  · decide

/-- C2 (amended): for the query `"4a"` over this catalog the global ranking
is `4A` (exact match, score 0) first, then the name-prefix problem
(score 2), then `44A` and `1504A` (both plain substring matches, score 3,
tie-broken by shorter id); nothing is excluded: "4a" is not a prefix of
"44a" but is a substring of "1504a". -/
theorem C2_ranking_amended :
    c2Global = ["4A", "999Z", "44A", "1504A"] ∧
    getScore "4a" c2P4A = 0 ∧
    getScore "4a" c2PName4a = 2 ∧
    getScore "4a" c2P44A = 3 ∧
    getScore "4a" c2P1504A = 3 ∧
    startsWithStr (lowerStr c2P44A.id) (lowerStr "4a") = false ∧
    strIncludes (lowerStr c2P1504A.id) (lowerStr "4a") = true := by
  refine ⟨by decide, by decide, by decide, by decide, by decide, by decide, by decide⟩

/-! ## C6: the CSV verdict cell -/

/-- C6 counterexample: the verdict `"wrong answer"` is not one of the four
listed verdicts, yet it does not map to its plain humanized form — the
suffix decision tests the humanized text, so it also receives the
`" on test "` suffix, contradicting the claim's "any other verdict"
clause. -/
theorem C6_verdict_counterexample :
    formatVerdictDetailed "wrong answer" 0 = "Wrong Answer on test 1" ∧
    humanize "wrong answer" = "Wrong Answer" ∧
    ("Wrong Answer on test 1" : String) ≠ "Wrong Answer" :=
  ⟨rfl, rfl, by decide⟩

/-- C6 (amended): `OK` maps to `Accepted`, `COMPILATION_ERROR` to
`Compilation Error`, each of the four listed verdicts to its humanized
form plus `" on test " + (passedTestCount + 1)`; every other verdict whose
humanized form is not one of the four suffix strings maps to its
humanized form with no suffix (the suffix is decided on the humanized
text, so case/separator variants of the four also receive it); and the
concrete example `WRONG_ANSWER`/2 yields `Wrong Answer on test 3`. -/
theorem C6_verdict_amended :
    (∀ n, formatVerdictDetailed "OK" n = "Accepted") ∧
    (∀ n, formatVerdictDetailed "COMPILATION_ERROR" n = "Compilation Error") ∧
    (∀ n, formatVerdictDetailed "WRONG_ANSWER" n =
      "Wrong Answer on test " ++ toString (n + 1)) ∧
    (∀ n, formatVerdictDetailed "TIME_LIMIT_EXCEEDED" n =
      "Time Limit Exceeded on test " ++ toString (n + 1)) ∧
    (∀ n, formatVerdictDetailed "MEMORY_LIMIT_EXCEEDED" n =
      "Memory Limit Exceeded on test " ++ toString (n + 1)) ∧
    (∀ n, formatVerdictDetailed "RUNTIME_ERROR" n =
      "Runtime Error on test " ++ toString (n + 1)) ∧
    (∀ v n, v ≠ "OK" → verdictSuffixList.contains (humanize v) = false →
      formatVerdictDetailed v n = humanize v) ∧
    formatVerdictDetailed "WRONG_ANSWER" 2 = "Wrong Answer on test 3" := by
  refine ⟨fun n => rfl, fun n => rfl, fun n => rfl, fun n => rfl, fun n => rfl,
    fun n => rfl, ?_, rfl⟩
  intro v n hOK hcon
  by_cases hv : v = ""
  · subst hv; rfl
  by_cases hce : v = "COMPILATION_ERROR"
  · subst hce; rfl
  · simp only [formatVerdictDetailed, if_neg hv, if_neg hOK, if_neg hce]
    have hmem : humanize v ∉ verdictSuffixList := by
      simpa [List.contains_iff_exists_mem_beq] using hcon
    simp [hmem]

/-- C6 witness: a verdict outside the suffix family maps to its plain
humanized form. -/
theorem C6_verdict_amended_witness :
    formatVerdictDetailed "PARTIAL" 5 = humanize "PARTIAL" :=
  C6_verdict_amended.2.2.2.2.2.2.1 "PARTIAL" 5 (by decide) (by decide)

/-! ## C3: CSV quoting and the byte-order mark -/

/-- C3 counterexample: a record whose `programmingLanguage` contains a
literal double quote produces a Language cell whose inner quote is not
doubled, so the claim's escaping rule fails for that field. -/
theorem C3_csv_counterexample :
    (csvValues 0 c3Rec).get? 6 = some "\"GNU C++ \"beta\"\"" ∧
    specQuotedCell c3Rec.programmingLanguage = "\"GNU C++ \"\"beta\"\"\"" ∧
    ("\"GNU C++ \"beta\"\"" : String) ≠ "\"GNU C++ \"\"beta\"\"\"" := by
  refine ⟨rfl, rfl, by decide⟩

/-- C3 (amended): every row wraps the four text cells in double quotes and
the whole output begins with a byte-order mark, but only the Problem Name
cell escapes inner double quotes by doubling; the Verdict, Language and
Date Time cells are inserted verbatim, so they follow the claimed shape
exactly when their content contains no double-quote character. -/
theorem C3_csv_amended (tz : Int) (r : SubRecord) (data : List SubRecord) :
    (csvValues tz r).get? 3 = some (specQuotedCell r.name) ∧
    (containsQuote (formatVerdictDetailed r.verdict r.passedTestCount) = false →
      (csvValues tz r).get? 5 =
        some (specQuotedCell (formatVerdictDetailed r.verdict r.passedTestCount))) ∧
    (containsQuote r.programmingLanguage = false →
      (csvValues tz r).get? 6 = some (specQuotedCell r.programmingLanguage)) ∧
    (containsQuote (formatFullDate tz r.creationTimeSeconds) = false →
      (csvValues tz r).get? 9 =
        some (specQuotedCell (formatFullDate tz r.creationTimeSeconds))) ∧
    (∃ rest, exportCsv tz data = "\uFEFF" ++ rest) := by
  refine ⟨rfl, ?_, ?_, ?_, ⟨_, rfl⟩⟩
  · intro h
    show some _ = some (specQuotedCell _)
    rw [specQuotedCell, escapeQuotes_of_no_quote _ h]
  · intro h
    show some _ = some (specQuotedCell _)
    rw [specQuotedCell, escapeQuotes_of_no_quote _ h]
  · intro h
    show some _ = some (specQuotedCell _)
    rw [specQuotedCell, escapeQuotes_of_no_quote _ h]

/-- C3 witness: all four cells of a quote-free record follow the prescribed
shape, and the export begins with the byte-order mark. -/
theorem C3_csv_amended_witness :
    (csvValues 0 c3Clean).get? 3 = some (specQuotedCell c3Clean.name) ∧
    (csvValues 0 c3Clean).get? 5 = some (specQuotedCell
      (formatVerdictDetailed c3Clean.verdict c3Clean.passedTestCount)) ∧
    (csvValues 0 c3Clean).get? 6 = some (specQuotedCell c3Clean.programmingLanguage) ∧
    (csvValues 0 c3Clean).get? 9 = some (specQuotedCell
      (formatFullDate 0 c3Clean.creationTimeSeconds)) ∧
    (∃ rest, exportCsv 0 [c3Clean] = "\uFEFF" ++ rest) :=
  ⟨(C3_csv_amended 0 c3Clean [c3Clean]).1,
   (C3_csv_amended 0 c3Clean [c3Clean]).2.1 (by decide),
   (C3_csv_amended 0 c3Clean [c3Clean]).2.2.1 (by decide),
   (C3_csv_amended 0 c3Clean [c3Clean]).2.2.2.1 (by decide),
   (C3_csv_amended 0 c3Clean [c3Clean]).2.2.2.2⟩

/-! ## C10: falsy ids are skipped, the rest of the batch is applied -/

/-- C10: an input record whose id is absent or `0` (falsy), or which lacks
a problem reference, is never written — even when it carries a complete
problem reference — and the rest of the batch is applied exactly as if
the record were not present. -/
theorem C10_falsy_id_skipped (s : List SubRecord) (pre post : List RawSubmission)
    (bad : RawSubmission)
    (h : bad.id = none ∨ bad.id = some 0 ∨ bad.problem = none) :
    saveSubmissions s (pre ++ bad :: post) = saveSubmissions s (pre ++ post) := by
  have hbad : ∀ t, mergeOne t bad = t := by
    intro t
    rcases h with h | h | h
    · simp [mergeOne, h]
    · cases h2 : bad.problem <;> simp [mergeOne, h, h2]
    · cases h1 : bad.id <;> simp [mergeOne, h, h1]
  simp [saveSubmissions, List.foldl_append, List.foldl_cons, hbad]

/-- C10 witness: a zero-id record with a complete problem reference is
skipped while the following record is still merged. -/
theorem C10_falsy_id_witness :
    saveSubmissions [] [c10Bad, c10Good] = saveSubmissions [] [c10Good] :=
  C10_falsy_id_skipped [] [] [c10Good] c10Bad (Or.inr (Or.inl rfl))

/-! ## Store lemmas (towards C1 and C4) -/

/-- Lookup in an empty store. -/
theorem getById_nil (k : Int) : getById [] k = none := rfl

/-- Lookup steps over one record. -/
theorem getById_cons (e : SubRecord) (es : List SubRecord) (k : Int) :
    getById (e :: es) k = if e.id = k then some e else getById es k := by
  by_cases h : e.id = k
  · simp [getById, List.find?_cons_of_pos, h]
  · simp [getById, List.find?_cons_of_neg, h]

/-- Lookup after a put: the put record is found under its own key, every
other key is unaffected. -/
theorem getById_put (s : List SubRecord) (r : SubRecord) (k : Int) :
    getById (putRecord s r) k = if r.id = k then some r else getById s k := by
  induction s with
  | nil =>
    by_cases h : r.id = k <;> simp [putRecord, getById_cons, getById_nil, h]
  | cons e es ih =>
    by_cases he : e.id = r.id
    · simp only [putRecord, if_pos he]
      by_cases hk : r.id = k
      · simp [getById_cons, hk]
      · have hek : ¬ e.id = k := fun hc => hk (he ▸ hc)
        simp [getById_cons, hk, hek]
    · simp only [putRecord, if_neg he]
      rw [getById_cons, ih]
      by_cases hk : r.id = k
      · have hek : ¬ e.id = k := fun hc => he (hc.trans hk.symm)
        simp [getById_cons, hk, hek]
      · simp [getById_cons, hk]

/-- `validKey` inversion: a valid record has a truthy id and a problem. -/
theorem validKey_some {sub : RawSubmission} {i : Int} (h : validKey sub = some i) :
    sub.id = some i ∧ i ≠ 0 ∧ ∃ pr, sub.problem = some pr := by
  cases h1 : sub.id with
  | none => simp [validKey, h1] at h
  | some j =>
    cases h2 : sub.problem with
    | none => simp [validKey, h1, h2] at h
    | some pr =>
      by_cases hj : j = 0
      · simp [validKey, h1, h2, hj] at h
      · simp only [validKey, h1, h2, if_pos hj, Option.some.injEq] at h
        subst h
        exact ⟨rfl, hj, pr, rfl⟩

/-- An invalid record is skipped by the merge loop. -/
theorem mergeOne_of_validKey_none {sub : RawSubmission} (h : validKey sub = none)
    (s : List SubRecord) : mergeOne s sub = s := by
  cases h1 : sub.id with
  | none => simp [mergeOne, h1]
  | some i =>
    cases h2 : sub.problem with
    | none => simp [mergeOne, h1, h2]
    | some pr =>
      by_cases hi : i = 0
      · simp [mergeOne, h1, h2, hi]
      · simp [validKey, h1, h2, hi] at h

/-- A valid record is put under its key, with the stored code carried over. -/
theorem mergeOne_of_validKey_some {sub : RawSubmission} {i : Int} {pr : RawProblemRef}
    (h : validKey sub = some i) (hpr : sub.problem = some pr) (s : List SubRecord) :
    mergeOne s sub = putRecord s (mkRecord sub i pr (getById s i)) := by
  obtain ⟨h1, hi, pr2, h2⟩ := validKey_some h
  rw [hpr] at h2
  cases h2
  simp [mergeOne, h1, hpr, hi]

/-- One merge step never changes the stored `code` under any key: the written
record's `code` is exactly the previously stored one. -/
theorem codeOf_mergeOne (s : List SubRecord) (sub : RawSubmission) (k : Int) :
    (getById (mergeOne s sub) k).bind (fun r => r.code) =
      (getById s k).bind (fun r => r.code) := by
  cases h : validKey sub with
  | none => rw [mergeOne_of_validKey_none h]
  | some i =>
    obtain ⟨h1, hi, pr, h2⟩ := validKey_some h
    rw [mergeOne_of_validKey_some h h2, getById_put]
    by_cases hk : (mkRecord sub i pr (getById s i)).id = k
    · have hik : i = k := hk
      rw [if_pos hk]
      simp [mkRecord, hik]
    · rw [if_neg hk]

/-- `saveSubmissions` never changes the stored `code` under any key. -/
theorem code_preserved (subs : List RawSubmission) :
    ∀ (s : List SubRecord) (k : Int),
      (getById (saveSubmissions s subs) k).bind (fun r => r.code) =
        (getById s k).bind (fun r => r.code) := by
  induction subs with
  | nil => intro s k; rfl
  | cons sub rest ih =>
    intro s k
    exact (ih (mergeOne s sub) k).trans (codeOf_mergeOne s sub k)

/-- Keys not written by the batch are untouched by `saveSubmissions`. -/
theorem getById_save_of_not_validId (subs : List RawSubmission) :
    ∀ (s : List SubRecord) (k : Int), k ∉ validIds subs →
      getById (saveSubmissions s subs) k = getById s k := by
  induction subs with
  | nil => intro s k _; rfl
  | cons sub rest ih =>
    intro s k hk
    cases h : validKey sub with
    | none =>
      have hrest : k ∉ validIds rest := by
        simpa [validIds, List.filterMap_cons, h] using hk
      show getById (saveSubmissions (mergeOne s sub) rest) k = getById s k
      rw [mergeOne_of_validKey_none h]
      exact ih s k hrest
    | some i =>
      have hk2 : ¬ (k = i ∨ k ∈ validIds rest) := by
        simpa [validIds, List.filterMap_cons, h] using hk
      obtain ⟨h1, hi, pr, h2⟩ := validKey_some h
      show getById (saveSubmissions (mergeOne s sub) rest) k = getById s k
      rw [mergeOne_of_validKey_some h h2,
        ih _ k (fun hmem => hk2 (Or.inr hmem)), getById_put]
      exact if_neg (fun hc : i = k => hk2 (Or.inl hc.symm))

/-- Extensional congruence: two stores that agree on stored codes
everywhere and agree outright outside the keys the batch writes are
indistinguishable (by lookup) after merging the batch into both. -/
theorem getById_save_congr (subs : List RawSubmission) :
    ∀ (u v : List SubRecord),
      (∀ k, (getById u k).bind (fun r => r.code) =
        (getById v k).bind (fun r => r.code)) →
      (∀ k, k ∉ validIds subs → getById u k = getById v k) →
      ∀ k, getById (saveSubmissions u subs) k = getById (saveSubmissions v subs) k := by
  induction subs with
  | nil =>
    intro u v _ h2 k
    exact h2 k (by simp [validIds])
  | cons sub rest ih =>
    intro u v h1 h2 k
    cases h : validKey sub with
    | none =>
      show getById (saveSubmissions (mergeOne u sub) rest) k =
        getById (saveSubmissions (mergeOne v sub) rest) k
      rw [mergeOne_of_validKey_none h, mergeOne_of_validKey_none h]
      exact ih u v h1
        (fun j hj => h2 j (by simpa [validIds, List.filterMap_cons, h] using hj)) k
    | some i =>
      obtain ⟨hid, hi, pr, hpr⟩ := validKey_some h
      have hrec : mkRecord sub i pr (getById u i) = mkRecord sub i pr (getById v i) := by
        simp only [mkRecord]
        rw [h1 i]
      show getById (saveSubmissions (mergeOne u sub) rest) k =
        getById (saveSubmissions (mergeOne v sub) rest) k
      rw [mergeOne_of_validKey_some h hpr, mergeOne_of_validKey_some h hpr, hrec]
      refine ih _ _ ?_ ?_ k
      · intro j
        rw [getById_put, getById_put]
        by_cases hj : (mkRecord sub i pr (getById v i)).id = j
        · rw [if_pos hj, if_pos hj]
        · rw [if_neg hj, if_neg hj]
          exact h1 j
      · intro j hj
        rw [getById_put, getById_put]
        by_cases hc : (mkRecord sub i pr (getById v i)).id = j
        · rw [if_pos hc, if_pos hc]
        · rw [if_neg hc, if_neg hc]
          refine h2 j (fun hmem => ?_)
          have hmem2 : j = i ∨ j ∈ validIds rest := by
            simpa [validIds, List.filterMap_cons, h] using hmem
          rcases hmem2 with hmem2 | hmem2
          · exact hc (show (mkRecord sub i pr (getById v i)).id = j from hmem2.symm)
          · exact hj hmem2

/-- Putting a record under an existing key leaves the key list unchanged. -/
theorem keysOf_put_of_mem {s : List SubRecord} {r : SubRecord}
    (h : r.id ∈ keysOf s) : keysOf (putRecord s r) = keysOf s := by
  induction s with
  | nil => simp [keysOf] at h
  | cons e es ih =>
    by_cases he : e.id = r.id
    · simp [putRecord, he, keysOf]
    · have h2 : r.id ∈ keysOf es := by
        rcases (by simpa [keysOf] using h : r.id = e.id ∨ r.id ∈ keysOf es) with h2 | h2
        · exact absurd h2.symm he
        · exact h2
      simp [putRecord, he, keysOf]
      exact congrArg (fun l => l) (by simpa [keysOf] using ih h2)

/-- Putting a record under a fresh key appends it. -/
theorem putRecord_of_not_mem {s : List SubRecord} {r : SubRecord}
    (h : r.id ∉ keysOf s) : putRecord s r = s ++ [r] := by
  induction s with
  | nil => rfl
  | cons e es ih =>
    have he : ¬ e.id = r.id := fun hc => h (by simp [keysOf, hc.symm])
    have h2 : r.id ∉ keysOf es := fun hc => h (by simp [keysOf]; exact Or.inr (by simpa [keysOf] using hc))
    simp [putRecord, he, ih h2]

/-- The put key is present after the put. -/
theorem mem_keysOf_put (s : List SubRecord) (r : SubRecord) :
    r.id ∈ keysOf (putRecord s r) := by
  by_cases h : r.id ∈ keysOf s
  · rw [keysOf_put_of_mem h]; exact h
  · rw [putRecord_of_not_mem h]; simp [keysOf]

/-- The key list of an appended singleton. -/
theorem keysOf_append_single (s : List SubRecord) (r : SubRecord) :
    keysOf (s ++ [r]) = keysOf s ++ [r.id] := by
  simp [keysOf]

/-- Every existing key survives a put. -/
theorem keysOf_subset_put (s : List SubRecord) (r : SubRecord) :
    ∀ k ∈ keysOf s, k ∈ keysOf (putRecord s r) := by
  intro k hk
  by_cases h : r.id ∈ keysOf s
  · rw [keysOf_put_of_mem h]; exact hk
  · rw [putRecord_of_not_mem h, keysOf_append_single]
    exact List.mem_append.mpr (Or.inl hk)

/-- A put preserves key distinctness. -/
theorem nodup_keysOf_put {s : List SubRecord} (r : SubRecord)
    (h : (keysOf s).Nodup) : (keysOf (putRecord s r)).Nodup := by
  by_cases hm : r.id ∈ keysOf s
  · rw [keysOf_put_of_mem hm]; exact h
  · rw [putRecord_of_not_mem hm, keysOf_append_single]
    refine List.Nodup.append h (List.nodup_singleton _) (fun a ha hb => ?_)
    rw [List.mem_singleton] at hb
    exact hm (hb ▸ ha)

/-- Every existing key survives a merge step. -/
theorem keysOf_subset_mergeOne (s : List SubRecord) (sub : RawSubmission) :
    ∀ k ∈ keysOf s, k ∈ keysOf (mergeOne s sub) := by
  intro k hk
  cases h : validKey sub with
  | none => rw [mergeOne_of_validKey_none h]; exact hk
  | some i =>
    obtain ⟨h1, hi, pr, h2⟩ := validKey_some h
    rw [mergeOne_of_validKey_some h h2]
    exact keysOf_subset_put s _ k hk

/-- A merge step preserves key distinctness. -/
theorem nodup_keysOf_mergeOne {s : List SubRecord} (sub : RawSubmission)
    (h : (keysOf s).Nodup) : (keysOf (mergeOne s sub)).Nodup := by
  cases hv : validKey sub with
  | none => rw [mergeOne_of_validKey_none hv]; exact h
  | some i =>
    obtain ⟨h1, hi, pr, h2⟩ := validKey_some hv
    rw [mergeOne_of_validKey_some hv h2]
    exact nodup_keysOf_put _ h

/-- Every existing key survives a whole batch. -/
theorem keysOf_subset_save (subs : List RawSubmission) :
    ∀ (s : List SubRecord) (k : Int), k ∈ keysOf s →
      k ∈ keysOf (saveSubmissions s subs) := by
  induction subs with
  | nil => intro s k hk; exact hk
  | cons sub rest ih =>
    intro s k hk
    exact ih (mergeOne s sub) k (keysOf_subset_mergeOne s sub k hk)

/-- Every key the batch writes is present after the batch. -/
theorem validIds_mem_keysOf_save (subs : List RawSubmission) :
    ∀ (s : List SubRecord) (k : Int), k ∈ validIds subs →
      k ∈ keysOf (saveSubmissions s subs) := by
  induction subs with
  | nil => intro s k hk; simp [validIds] at hk
  | cons sub rest ih =>
    intro s k hk
    cases h : validKey sub with
    | none =>
      have hrest : k ∈ validIds rest := by
        simpa [validIds, List.filterMap_cons, h] using hk
      exact ih (mergeOne s sub) k hrest
    | some i =>
      rcases (by simpa [validIds, List.filterMap_cons, h] using hk :
          k = i ∨ k ∈ validIds rest) with hk2 | hk2
      · subst hk2
        obtain ⟨h1, hi, pr, h2⟩ := validKey_some h
        refine keysOf_subset_save rest (mergeOne s sub) k ?_
        rw [mergeOne_of_validKey_some h h2]
        exact mem_keysOf_put s _
      · exact ih (mergeOne s sub) k hk2

/-- If the store already contains every key the batch writes, the batch
leaves the key list unchanged. -/
theorem keysOf_save_of_covered (subs : List RawSubmission) :
    ∀ (u : List SubRecord), (∀ k ∈ validIds subs, k ∈ keysOf u) →
      keysOf (saveSubmissions u subs) = keysOf u := by
  induction subs with
  | nil => intro u _; rfl
  | cons sub rest ih =>
    intro u hcov
    cases h : validKey sub with
    | none =>
      show keysOf (saveSubmissions (mergeOne u sub) rest) = keysOf u
      rw [mergeOne_of_validKey_none h]
      exact ih u (fun k hk => hcov k (by simpa [validIds, List.filterMap_cons, h] using hk))
    | some i =>
      obtain ⟨h1, hi, pr, h2⟩ := validKey_some h
      have hiu : i ∈ keysOf u := hcov i (by simp [validIds, List.filterMap_cons, h])
      have hkeys : keysOf (mergeOne u sub) = keysOf u := by
        rw [mergeOne_of_validKey_some h h2]
        exact keysOf_put_of_mem hiu
      show keysOf (saveSubmissions (mergeOne u sub) rest) = keysOf u
      rw [ih (mergeOne u sub) ?_, hkeys]
      intro k hk
      rw [hkeys]
      refine hcov k ?_
      have : validIds (sub :: rest) = i :: validIds rest := by
        simp [validIds, List.filterMap_cons, h]
      rw [this]
      exact List.mem_cons_of_mem i hk

/-- A whole batch preserves key distinctness. -/
theorem nodup_keysOf_save (subs : List RawSubmission) :
    ∀ (s : List SubRecord), (keysOf s).Nodup →
      (keysOf (saveSubmissions s subs)).Nodup := by
  induction subs with
  | nil => intro s h; exact h
  | cons sub rest ih =>
    intro s h
    exact ih (mergeOne s sub) (nodup_keysOf_mergeOne sub h)

/-! ## C1: the sticky `code` field -/

/-- C1 counterexample: merging an incoming record that supplies
`code = "X"` for an id whose stored record holds `code = "Y"` leaves the
stored code at `"Y"` — the incoming code does not overwrite it, because
`saveSubmissions` always writes `code: existing?.code`. -/
theorem C1_sticky_counterexample :
    c1Incoming.code = some "X" ∧
    (getById (saveSubmissions [c1Existing] [c1Incoming]) 1).bind (fun r => r.code) =
      some "Y" ∧
    (some "Y" : Option String) ≠ some "X" := by
  refine ⟨rfl, by decide, by decide⟩

/-- C1 (amended): a merge never changes any stored `code`: after any batch,
the code under every key is exactly the code stored under that key before
the batch (in particular a record merged for a new id gets no code, and an
incoming record's own `code` value is ignored entirely — an incoming
record omitting `code` leaves the stored code unchanged, and one supplying
`code` does too). -/
theorem C1_sticky_code_amended (s : List SubRecord) (b : List RawSubmission) (k : Int) :
    (getById (saveSubmissions s b) k).bind (fun r => r.code) =
      (getById s k).bind (fun r => r.code) :=
  code_preserved b s k

/-! ## C4: merge idempotence -/

/-- C4: merging the same batch twice is idempotent: the second application
changes neither the record count nor any stored record (lookup under every
key is identical), and key distinctness is preserved throughout. -/
theorem C4_merge_idempotent (s : List SubRecord) (b : List RawSubmission) :
    (saveSubmissions (saveSubmissions s b) b).length = (saveSubmissions s b).length ∧
    (∀ k, getById (saveSubmissions (saveSubmissions s b) b) k =
      getById (saveSubmissions s b) k) ∧
    ((keysOf s).Nodup → (keysOf (saveSubmissions (saveSubmissions s b) b)).Nodup) := by
  refine ⟨?_, ?_, ?_⟩
  · have hk := keysOf_save_of_covered b (saveSubmissions s b)
      (fun k hk => validIds_mem_keysOf_save b s k hk)
    have hlen := congrArg List.length hk
    simpa [keysOf, List.length_map] using hlen
  · intro k
    exact getById_save_congr b (saveSubmissions s b) s
      (fun j => code_preserved b s j)
      (fun j hj => getById_save_of_not_validId b s j hj) k
  · intro h
    exact nodup_keysOf_save b _ (nodup_keysOf_save b s h)

/-- C4 witness: the idempotence, evaluated for a concrete store and batch
(the distinctness hypothesis discharged on the concrete store). -/
theorem C4_merge_idempotent_witness :
    (saveSubmissions (saveSubmissions [c1Existing] [c1Incoming, c10Good])
        [c1Incoming, c10Good]).length =
      (saveSubmissions [c1Existing] [c1Incoming, c10Good]).length ∧
    getById (saveSubmissions (saveSubmissions [c1Existing] [c1Incoming, c10Good])
        [c1Incoming, c10Good]) 2 =
      getById (saveSubmissions [c1Existing] [c1Incoming, c10Good]) 2 ∧
    (keysOf (saveSubmissions (saveSubmissions [c1Existing] [c1Incoming, c10Good])
        [c1Incoming, c10Good])).Nodup :=
  ⟨(C4_merge_idempotent [c1Existing] [c1Incoming, c10Good]).1,
   (C4_merge_idempotent [c1Existing] [c1Incoming, c10Good]).2.1 2,
   (C4_merge_idempotent [c1Existing] [c1Incoming, c10Good]).2.2 (by decide)⟩

end CfHelper

